import Mathlib

/-!
Verification development for the regextra library: extraction of named
capture groups from regular-expression matches, and population of
structured records from those groups.

The regular-expression engine itself is an external collaborator: a
compiled pattern is modelled as its ordered table of subexpression names
(position 0 is the whole match and carries the empty name) together with
its two matching operations, exactly the boundary surface the library
consumes (`SubexpNames`, `FindStringSubmatch`, `FindAllStringSubmatch`).

Go maps from strings are encoded as association lists with unique keys:
`mapInsert` models `m[k] = v` (replace or append), `mapAppend` models
`m[k] = append(m[k], v)`, `mapLookup` models `m[k]`.
-/

namespace Regextra

/-- A compiled pattern, reduced to the boundary surface the library uses:
the ordered subexpression-name table and the two match operations.
`findStringSubmatch` returns `none` when there is no match, otherwise the
ordered sequence of captured substrings (position 0 the whole match).
`findAllStringSubmatch` returns one such sequence per occurrence, in
left-to-right order, `[]` when there is no occurrence. -/
structure Regexp where
  subexpNames : List String
  findStringSubmatch : String → Option (List String)
  findAllStringSubmatch : String → List (List String)

/-- Go map assignment `m[k] = v` on an association list: replace the
binding if the key is present, otherwise append a fresh binding. -/
def mapInsert {β : Type} : List (String × β) → String → β → List (String × β)
  | [], k, v => [(k, v)]
  | p :: rest, k, v => if p.1 = k then (k, v) :: rest else p :: mapInsert rest k v

/-- Go map assignment `m[k] = append(m[k], v)`: append `v` to the key's
sequence, creating the binding with `[v]` when the key is absent. -/
def mapAppend : List (String × List String) → String → String → List (String × List String)
  | [], k, v => [(k, [v])]
  | p :: rest, k, v => if p.1 = k then (p.1, p.2 ++ [v]) :: rest else p :: mapAppend rest k v

/-- Go map read `m[k]` (as an option). -/
def mapLookup {β : Type} (k : String) : List (String × β) → Option β
  | [] => none
  | p :: rest => if p.1 = k then some p.2 else mapLookup k rest

/-- Index of the first element equal to `g` (the scanning loop inside
Go's `Regexp.SubexpIndex`). -/
def subexpIndexAux (g : String) : List String → Option Nat
  | [] => none
  | s :: rest => if s = g then some 0 else (subexpIndexAux g rest).map (fun j => j + 1)

/-- Go's `Regexp.SubexpIndex`: the index of the first subexpression with
the given name, `none` (Go: `-1`) when the name is empty or absent. -/
def SubexpIndex (re : Regexp) (g : String) : Option Nat :=
  if g = "" then none else subexpIndexAux g re.subexpNames

/-- `FindNamed` from `main.go`: value of the named capture group in the
target string, with a found flag. -/
def FindNamed (re : Regexp) (target groupName : String) : String × Bool :=
  match SubexpIndex re groupName with
  | none => ("", false)
  | some index =>
    match re.findStringSubmatch target with
    | none => ("", false)
    | some ms => (ms.getD index "", true)

/-- Loop body of `NamedGroups` from `main.go`:
`for i, name := range re.SubexpNames() { if i != 0 && name != "" { result[name] = matches[i] } }`. -/
def namedGroupsAux (ms : List String) : Nat → List String → List (String × String) → List (String × String)
  | _, [], result => result
  | i, name :: rest, result =>
    namedGroupsAux ms (i + 1) rest
      (if i ≠ 0 ∧ name ≠ "" then mapInsert result name (ms.getD i "") else result)

/-- `NamedGroups` from `main.go`: map of all named capture groups and
their matched values from the first match; empty map when no match. -/
def NamedGroups (re : Regexp) (target : String) : List (String × String) :=
  match re.findStringSubmatch target with
  | none => []
  | some ms => namedGroupsAux ms 0 re.subexpNames []

/-- Loop body of `AllNamedGroups` from `main.go`:
`for i, name := range re.SubexpNames() { if i != 0 && name != "" { result[name] = append(result[name], matches[i]) } }`. -/
def allNamedGroupsAux (ms : List String) : Nat → List String → List (String × List String) → List (String × List String)
  | _, [], result => result
  | i, name :: rest, result =>
    allNamedGroupsAux ms (i + 1) rest
      (if i ≠ 0 ∧ name ≠ "" then mapAppend result name (ms.getD i "") else result)

/-- `AllNamedGroups` from `main.go`: map from each named capture group to
the slice of all its matched values; empty map when no match. -/
def AllNamedGroups (re : Regexp) (target : String) : List (String × List String) :=
  match re.findStringSubmatch target with
  | none => []
  | some ms => allNamedGroupsAux ms 0 re.subexpNames []

/-- `Regextra.SubexpValue` from the deprecated wrapper (also exposed as
the package-level `SubexpValue` in `smoosh.go`): value of the capture
group with the given name, using the first index bearing the name. -/
def SubexpValue (re : Regexp) (target cgName : String) : String × Bool :=
  match SubexpIndex re cgName with
  | none => ("", false)
  | some cgIndex =>
    match re.findStringSubmatch target with
    | none => ("", false)
    | some ms => (ms.getD cgIndex "", true)

/-- Loop body of the deprecated `Regextra.SubexpMap`: for every nonzero
position with a nonempty name, look the name up through `SubexpValue`
(which always resolves the first position bearing it) and assign. -/
def subexpMapAux (re : Regexp) (target : String) : Nat → List String → List (String × String) → List (String × String)
  | _, [], cgMap => cgMap
  | i, name :: rest, cgMap =>
    subexpMapAux re target (i + 1) rest
      (if i ≠ 0 ∧ name ≠ "" then
        match SubexpValue re target name with
        | (value, true) => mapInsert cgMap name value
        | (_, false) => cgMap
      else cgMap)

/-- The deprecated `Regextra.SubexpMap` (also exposed as the
package-level `SubexpMap` in `smoosh.go`): map of capture-group names to
values, each name resolved through `SubexpValue`. -/
def SubexpMap (re : Regexp) (target : String) : List (String × String) :=
  match re.findStringSubmatch target with
  | none => []
  | some _ => subexpMapAux re target 0 re.subexpNames []

/-!
Record-population engine. The Go implementation of `Unmarshal` and
`UnmarshalAll` is not part of the sources at hand (only its tests,
changelog entry and README documentation are), so the definitions below
are modelled from the specification of the field-mapping and
type-coercion engine (its §4.2 `populate`/`populateMany`, §6 entry
points, §7 error taxonomy), cross-checked against the tests in
`main_test.go`.
-/

/-- Modelled from the spec: the closed enumeration of declared primitive
field kinds (text, signed integer, unsigned integer, floating point,
boolean); `unsupported` stands for every other declared kind, which must
produce an "unsupported field type" error when a value resolves. -/
inductive FieldKind where
  | text
  | signedInt
  | unsignedInt
  | floatKind
  | boolKind
  | unsupported
deriving DecidableEq

/-- Modelled from the spec: the value stored in a record field, one
variant per supported kind. Floating-point values are modelled as exact
rationals: the spec's "decimal/exponential float" is embedded without
IEEE rounding, which no claim depends on. -/
inductive FieldValue where
  | vstr (s : String)
  | vint (i : Int)
  | vnat (n : Nat)
  | vrat (q : Rat)
  | vbool (b : Bool)
deriving DecidableEq

/-- Modelled from the spec: a Field Descriptor — the field's name, its
declared kind, the optional explicit source-group override carried by a
`regex:"..."` tag, and whether the field is externally writable
(exported). -/
structure FieldDesc where
  name : String
  kind : FieldKind
  regexTag : Option String
  writable : Bool
deriving DecidableEq

/-- A Target Record: its fields in declaration order, each a descriptor
paired with the field's current value. -/
abbrev Record := List (FieldDesc × FieldValue)

/-- ASCII lower-casing of one character (the case folding used for the
case-insensitive field-name match). -/
def lowerChar (c : Char) : Char :=
  if 'A' ≤ c ∧ c ≤ 'Z' then Char.ofNat (c.toNat + 32) else c

/-- ASCII-case-insensitive equality of strings. -/
def eqFold (a b : String) : Prop :=
  a.data.map lowerChar = b.data.map lowerChar

instance (a b : String) : Decidable (eqFold a b) := by
  unfold eqFold
  infer_instance

/-- Base-10 digit accumulation over a character list; `none` as soon as a
non-digit appears. -/
def parseNatAux : List Char → Nat → Option Nat
  | [], acc => some acc
  | c :: rest, acc =>
    if c.isDigit then parseNatAux rest (acc * 10 + (c.toNat - ('0').toNat)) else none

/-- Base-10 unsigned-integer parse of a character list: one or more
digits, nothing else. -/
def parseNatList : List Char → Option Nat
  | [] => none
  | l => parseNatAux l 0

/-- Modelled from the spec: base-10 signed-integer parse (optional sign
followed by one or more digits), as Go's `strconv.ParseInt` accepts in
base 10. -/
def parseSignedInt (s : String) : Option Int :=
  match s.data with
  | '-' :: rest => (parseNatList rest).map (fun n => -(n : Int))
  | '+' :: rest => (parseNatList rest).map (fun n => (n : Int))
  | l => (parseNatList l).map (fun n => (n : Int))

/-- Modelled from the spec: base-10 unsigned-integer parse, as Go's
`strconv.ParseUint` accepts in base 10 (no sign allowed). -/
def parseUnsignedInt (s : String) : Option Nat :=
  parseNatList s.data

/-- Modelled from the spec: the conventional boolean-literal vocabulary
accepted by Go's `strconv.ParseBool`. -/
def parseGoBool (s : String) : Option Bool :=
  if s = "1" ∨ s = "t" ∨ s = "T" ∨ s = "true" ∨ s = "TRUE" ∨ s = "True" then some true
  else if s = "0" ∨ s = "f" ∨ s = "F" ∨ s = "false" ∨ s = "FALSE" ∨ s = "False" then some false
  else none

/-- Split a character list at every occurrence of `sep`. -/
def splitOnChar (sep : Char) : List Char → List (List Char)
  | [] => [[]]
  | c :: rest =>
    match splitOnChar sep rest with
    | [] => if c = sep then [[], []] else [[c]]
    | h :: t => if c = sep then [] :: h :: t else (c :: h) :: t

/-- Integer part plus optional fractional part of a decimal mantissa, as
an exact rational; at least one digit must be present overall. -/
def parseMantissa (m : List Char) : Option Rat :=
  match splitOnChar ('.') m with
  | [ip] => (parseNatList ip).map (fun n => (n : Rat))
  | [ip, fp] =>
    if ip = [] ∧ fp = [] then none
    else do
      let ipn ← if ip = [] then pure 0 else parseNatList ip
      let fpn ← if fp = [] then pure 0 else parseNatList fp
      pure ((ipn : Rat) + (fpn : Rat) / (10 : Rat) ^ fp.length)
  | _ => none

/-- Signed-integer parse of a character list (for a float exponent). -/
def parseIntList : List Char → Option Int
  | '-' :: rest => (parseNatList rest).map (fun n => -(n : Int))
  | '+' :: rest => (parseNatList rest).map (fun n => (n : Int))
  | l => (parseNatList l).map (fun n => (n : Int))

/-- Modelled from the spec: decimal/exponential floating-point parse,
embedded as an exact rational (optional sign, decimal mantissa, optional
`e`/`E` exponent). -/
def parseFloatRat (s : String) : Option Rat :=
  let signed : Int × List Char :=
    match s.data with
    | '-' :: rest => (-1, rest)
    | '+' :: rest => (1, rest)
    | l => (1, l)
  match splitOnChar ('e') (signed.2.map lowerChar) with
  | [m] => (parseMantissa m).map (fun q => (signed.1 : Rat) * q)
  | [m, e] => do
    let mv ← parseMantissa m
    let ev ← parseIntList e
    pure ((signed.1 : Rat) * mv * (10 : Rat) ^ ev)
  | _ => none

/-- Modelled from the spec: convert a resolved string value per the
field's declared kind; a failed parse or an unsupported kind yields a
conversion error naming the field and the offending string. -/
def convertValue (f : FieldDesc) (s : String) : Except String FieldValue :=
  match f.kind with
  | .text => .ok (.vstr s)
  | .signedInt =>
    match parseSignedInt s with
    | some i => .ok (.vint i)
    | none => .error ("cannot convert " ++ s ++ " to signed integer for field " ++ f.name)
  | .unsignedInt =>
    match parseUnsignedInt s with
    | some n => .ok (.vnat n)
    | none => .error ("cannot convert " ++ s ++ " to unsigned integer for field " ++ f.name)
  | .floatKind =>
    match parseFloatRat s with
    | some q => .ok (.vrat q)
    | none => .error ("cannot convert " ++ s ++ " to float for field " ++ f.name)
  | .boolKind =>
    match parseGoBool s with
    | some b => .ok (.vbool b)
    | none => .error ("cannot convert " ++ s ++ " to bool for field " ++ f.name)
  | .unsupported => .error ("unsupported field type for field " ++ f.name)

/-- Case-insensitive scan of the mapping for the field's name (the
third resolution tier; the first key found wins, tie-break unspecified
by the spec). -/
def lookupFold (k : String) : List (String × String) → Option String
  | [] => none
  | p :: rest => if eqFold p.1 k then some p.2 else lookupFold k rest

/-- Modelled from the spec: resolve a field's source group against the
group-value mapping. An explicit override is the source name, full stop
(no fallback even when absent); otherwise an exact name match, then a
case-insensitive one; `none` leaves the field unset (not an error). -/
def resolveSource (f : FieldDesc) (mapping : List (String × String)) : Option String :=
  match f.regexTag with
  | some o => mapLookup o mapping
  | none =>
    match mapLookup f.name mapping with
    | some v => some v
    | none => lookupFold f.name mapping

/-- Modelled from the spec: `populate` — walk the fields in declaration
order, skip unwritable ones, resolve each writable field, convert and
write; on the first conversion error abort (fields already written stay
written, later fields stay untouched) and surface the error. -/
def populateFields (mapping : List (String × String)) : Record → Option String × Record
  | [] => (none, [])
  | (f, v) :: rest =>
    if f.writable then
      match resolveSource f mapping with
      | none =>
        match populateFields mapping rest with
        | (e, rest') => (e, (f, v) :: rest')
      | some s =>
        match convertValue f s with
        | .ok v' =>
          match populateFields mapping rest with
          | (e, rest') => (e, (f, v') :: rest')
        | .error msg => (some msg, (f, v) :: rest)
    else
      match populateFields mapping rest with
      | (e, rest') => (e, (f, v) :: rest')

/-- The spec's `projectFirst`: first-match projection of one raw match
result, last value winning among duplicate names — definitionally the
loop of `NamedGroups`. -/
def projectFirst (names ms : List String) : List (String × String) :=
  namedGroupsAux ms 0 names []

/-- Modelled from the spec: the error taxonomy of the population entry
points — usage errors (target of the wrong shape) versus conversion
errors (a resolved value failed to parse or had an unsupported kind). -/
inductive RegexError where
  | usageError (msg : String)
  | conversionError (msg : String)
deriving DecidableEq

/-- Tests whether a returned error is a usage error. -/
def isUsageError : Option RegexError → Bool
  | some (.usageError _) => true
  | _ => false

/-- Modelled from the spec: the shapes a caller can pass to `unmarshal` —
only a non-nil reference to a record is valid; a nil reference, a record
passed by value, or a reference to a non-record (carrying its own state)
are usage errors. -/
inductive UnmarshalTarget where
  | ptrStruct (r : Record)
  | nilPtr
  | nonPtr (r : Record)
  | ptrNonStruct (s : String)
deriving DecidableEq

/-- Modelled from the spec: `unmarshal(pattern, text, targetRecordRef)` —
validate the target shape first (usage error, no matching attempted),
then populate one record from the first match; no match is success with
the record unchanged. Returns the error (if any) paired with the final
state of the target. -/
def Unmarshal (re : Regexp) (text : String) (v : UnmarshalTarget) : Option RegexError × UnmarshalTarget :=
  match v with
  | .ptrStruct r =>
    match re.findStringSubmatch text with
    | none => (none, .ptrStruct r)
    | some ms =>
      match populateFields (projectFirst re.subexpNames ms) r with
      | (none, r') => (none, .ptrStruct r')
      | (some e, r') => (some (.conversionError e), .ptrStruct r')
  | t => (some (.usageError ("target must be a non-nil pointer to a struct")), t)

/-- Modelled from the spec: the shapes a caller can pass to
`unmarshalAll` — only a non-nil reference to a resizable sequence of
records is valid. A valid target carries the element type's zero-valued
record (`zero`, the fresh instance allocated per occurrence) and the
sequence's current contents. -/
inductive UnmarshalAllTarget where
  | ptrSlice (zero : Record) (contents : List Record)
  | nilPtr
  | nonPtr (contents : List Record)
  | ptrNonSlice (r : Record)
  | ptrSliceNonStruct (ss : List String)
deriving DecidableEq

/-- Modelled from the spec: the loop of `populateMany` — one fresh
zero-valued record per occurrence, populated from that occurrence's
first-match projection; the first conversion error aborts the whole
operation. -/
def populateMany (zero : Record) (names : List String) : List (List String) → Except String (List Record)
  | [] => .ok []
  | ms :: rest =>
    match populateFields (projectFirst names ms) zero with
    | (none, r) =>
      match populateMany zero names rest with
      | .ok rs => .ok (r :: rs)
      | .error e => .error e
    | (some e, _) => .error e

/-- Modelled from the spec: `unmarshalAll(pattern, text, targetRef)` —
validate the target shape first (usage error, no matching attempted);
zero occurrences replace the contents with the empty sequence and
succeed; otherwise the contents are replaced wholesale by the freshly
populated records in match order, and a conversion error aborts the
operation (contents then unspecified by the spec; the model keeps the
prior contents). -/
def UnmarshalAll (re : Regexp) (text : String) (v : UnmarshalAllTarget) : Option RegexError × UnmarshalAllTarget :=
  match v with
  | .ptrSlice zero contents =>
    match re.findAllStringSubmatch text with
    | [] => (none, .ptrSlice zero [])
    | occ :: occs =>
      match populateMany zero re.subexpNames (occ :: occs) with
      | .ok recs => (none, .ptrSlice zero recs)
      | .error e => (some (.conversionError e), .ptrSlice zero contents)
  | t => (some (.usageError ("target must be a non-nil pointer to a slice of structs")), t)

/-- Positions (with their offset) at which the name `g` occurs in a
suffix of the name table, skipping position 0. -/
def namePositionsAux (g : String) : Nat → List String → List Nat
  | _, [] => []
  | i, name :: rest => (if i ≠ 0 ∧ name = g then [i] else []) ++ namePositionsAux g (i + 1) rest

/-- All capture positions of a pattern bearing the name `g` (position 0,
the whole match, never counts), in left-to-right order. -/
def namePositions (re : Regexp) (g : String) : List Nat :=
  namePositionsAux g 0 re.subexpNames

/-! Lemmas about the Go-map encoding. -/

theorem mapLookup_mapInsert_self {β : Type} (m : List (String × β)) (k : String) (v : β) :
    mapLookup k (mapInsert m k v) = some v := by
  induction m with
  | nil => simp [mapInsert, mapLookup]
  | cons p rest ih =>
    by_cases h : p.1 = k
    · simp [mapInsert, mapLookup, h]
    · simp [mapInsert, mapLookup, h, ih]

theorem mapLookup_mapInsert_ne {β : Type} (m : List (String × β)) (k k' : String) (v : β)
    (h : k' ≠ k) : mapLookup k' (mapInsert m k v) = mapLookup k' m := by
  have hkk : ¬(k = k') := fun he => h he.symm
  induction m with
  | nil => simp [mapInsert, mapLookup, hkk]
  | cons p rest ih =>
    by_cases hp : p.1 = k
    · simp [mapInsert, mapLookup, hp, hkk]
    · simp only [mapInsert, if_neg hp]
      by_cases hp' : p.1 = k'
      · simp [mapLookup, hp']
      · simp [mapLookup, hp', ih]

theorem mapLookup_mapAppend_self (m : List (String × List String)) (k v : String) :
    mapLookup k (mapAppend m k v) = some ((mapLookup k m).getD [] ++ [v]) := by
  induction m with
  | nil => simp [mapAppend, mapLookup]
  | cons p rest ih =>
    by_cases h : p.1 = k
    · simp [mapAppend, mapLookup, h]
    · simp [mapAppend, mapLookup, h, ih]

theorem mapLookup_mapAppend_ne (m : List (String × List String)) (k k' v : String)
    (h : k' ≠ k) : mapLookup k' (mapAppend m k v) = mapLookup k' m := by
  have hkk : ¬(k = k') := fun he => h he.symm
  induction m with
  | nil => simp [mapAppend, mapLookup, hkk]
  | cons p rest ih =>
    by_cases hp : p.1 = k
    · simp [mapAppend, mapLookup, hp, hkk]
    · simp only [mapAppend, if_neg hp]
      by_cases hp' : p.1 = k'
      · simp [mapLookup, hp']
      · simp [mapLookup, hp', ih]

theorem mem_mapInsert {β : Type} (m : List (String × β)) (k : String) (v : β)
    (p : String × β) (hp : p ∈ mapInsert m k v) : p.1 = k ∨ p ∈ m := by
  induction m with
  | nil =>
    simp only [mapInsert, List.mem_singleton] at hp
    exact Or.inl (by rw [hp])
  | cons q rest ih =>
    by_cases h : q.1 = k
    · rw [mapInsert, if_pos h] at hp
      rcases List.mem_cons.mp hp with h1 | h1
      · exact Or.inl (by rw [h1])
      · exact Or.inr (List.mem_cons_of_mem q h1)
    · rw [mapInsert, if_neg h] at hp
      rcases List.mem_cons.mp hp with h1 | h1
      · exact Or.inr (h1 ▸ List.mem_cons_self q rest)
      · rcases ih h1 with h2 | h2
        · exact Or.inl h2
        · exact Or.inr (List.mem_cons_of_mem q h2)

theorem mem_mapAppend (m : List (String × List String)) (k v : String)
    (p : String × List String) (hp : p ∈ mapAppend m k v) : p.1 = k ∨ p ∈ m := by
  induction m with
  | nil =>
    simp only [mapAppend, List.mem_singleton] at hp
    exact Or.inl (by rw [hp])
  | cons q rest ih =>
    by_cases h : q.1 = k
    · rw [mapAppend, if_pos h] at hp
      rcases List.mem_cons.mp hp with h1 | h1
      · exact Or.inl (by rw [h1, h])
      · exact Or.inr (List.mem_cons_of_mem q h1)
    · rw [mapAppend, if_neg h] at hp
      rcases List.mem_cons.mp hp with h1 | h1
      · exact Or.inr (h1 ▸ List.mem_cons_self q rest)
      · rcases ih h1 with h2 | h2
        · exact Or.inl h2
        · exact Or.inr (List.mem_cons_of_mem q h2)

theorem keys_mapInsert_congr {β γ : Type} (k : String) (v₁ : β) (v₂ : γ) :
    ∀ (m₁ : List (String × β)) (m₂ : List (String × γ)),
    m₁.map Prod.fst = m₂.map Prod.fst →
    (mapInsert m₁ k v₁).map Prod.fst = (mapInsert m₂ k v₂).map Prod.fst := by
  intro m₁
  induction m₁ with
  | nil =>
    intro m₂ h
    have h2 : m₂ = [] := by
      cases m₂ with
      | nil => rfl
      | cons q t => simp at h
    subst h2
    rfl
  | cons p rest ih =>
    intro m₂ h
    cases m₂ with
    | nil => simp at h
    | cons q rest₂ =>
      simp only [List.map_cons, List.cons.injEq] at h
      obtain ⟨hpq, hrest⟩ := h
      by_cases hk : p.1 = k
      · rw [mapInsert, if_pos hk, mapInsert, if_pos (hpq ▸ hk)]
        simp [hrest]
      · rw [mapInsert, if_neg hk, mapInsert, if_neg (hpq ▸ hk)]
        simp [hpq, ih rest₂ hrest]

/-! Characterization of the two projection folds. -/

theorem lookup_namedGroupsAux (ms : List String) (g : String) (hg : g ≠ "") :
    ∀ (names : List String) (i : Nat) (acc : List (String × String)),
    mapLookup g (namedGroupsAux ms i names acc) =
      match (namePositionsAux g i names).getLast? with
      | some j => some (ms.getD j "")
      | none => mapLookup g acc := by
  intro names
  induction names with
  | nil => intro i acc; rfl
  | cons name rest ih =>
    intro i acc
    have hstep : namedGroupsAux ms i (name :: rest) acc =
        namedGroupsAux ms (i + 1) rest
          (if i ≠ 0 ∧ name ≠ "" then mapInsert acc name (ms.getD i "") else acc) := rfl
    have hpos : namePositionsAux g i (name :: rest) =
        (if i ≠ 0 ∧ name = g then [i] else []) ++ namePositionsAux g (i + 1) rest := rfl
    rw [hstep, ih (i + 1)]
    rcases h : (namePositionsAux g (i + 1) rest).getLast? with _ | j
    · have htail : namePositionsAux g (i + 1) rest = [] := by
        simpa [List.getLast?_eq_none_iff] using h
      by_cases hig : i ≠ 0 ∧ name = g
      · have hguard : i ≠ 0 ∧ name ≠ "" := ⟨hig.1, by rw [hig.2]; exact hg⟩
        rw [hpos, htail, if_pos hig, if_pos hguard]
        simp only [List.append_nil, List.getLast?_singleton]
        rw [hig.2, mapLookup_mapInsert_self]
      · rw [hpos, htail, if_neg hig]
        simp only [List.nil_append, List.getLast?_nil]
        by_cases hguard : i ≠ 0 ∧ name ≠ ""
        · have hne : g ≠ name := by
            intro he
            exact hig ⟨hguard.1, he.symm⟩
          rw [if_pos hguard, mapLookup_mapInsert_ne _ _ _ _ hne]
        · rw [if_neg hguard]
    · rw [hpos, List.getLast?_append, h]
      rfl

theorem lookup_allNamedGroupsAux (ms : List String) (g : String) (hg : g ≠ "") :
    ∀ (names : List String) (i : Nat) (acc : List (String × List String)),
    mapLookup g (allNamedGroupsAux ms i names acc) =
      if namePositionsAux g i names = [] then mapLookup g acc
      else some ((mapLookup g acc).getD [] ++
        (namePositionsAux g i names).map (fun j => ms.getD j "")) := by
  intro names
  induction names with
  | nil => intro i acc; rfl
  | cons name rest ih =>
    intro i acc
    have hstep : allNamedGroupsAux ms i (name :: rest) acc =
        allNamedGroupsAux ms (i + 1) rest
          (if i ≠ 0 ∧ name ≠ "" then mapAppend acc name (ms.getD i "") else acc) := rfl
    have hpos : namePositionsAux g i (name :: rest) =
        (if i ≠ 0 ∧ name = g then [i] else []) ++ namePositionsAux g (i + 1) rest := rfl
    rw [hstep, ih (i + 1)]
    by_cases hig : i ≠ 0 ∧ name = g
    · have hguard : i ≠ 0 ∧ name ≠ "" := ⟨hig.1, by rw [hig.2]; exact hg⟩
      rw [if_pos hguard, hpos, if_pos hig, hig.2, mapLookup_mapAppend_self]
      by_cases htail : namePositionsAux g (i + 1) rest = []
      · rw [if_pos htail, htail]
        simp
      · rw [if_neg htail, if_neg (by simp [htail])]
        simp [List.append_assoc]
    · have hacc : mapLookup g (if i ≠ 0 ∧ name ≠ "" then mapAppend acc name (ms.getD i "") else acc) =
          mapLookup g acc := by
        by_cases hguard : i ≠ 0 ∧ name ≠ ""
        · have hne : g ≠ name := by
            intro he
            exact hig ⟨hguard.1, he.symm⟩
          rw [if_pos hguard, mapLookup_mapAppend_ne _ _ _ _ hne]
        · rw [if_neg hguard]
      rw [hacc, hpos, if_neg hig, List.nil_append]

/-! Key-shape invariants of the two folds (for the map-key invariant). -/

theorem mem_namedGroupsAux (ms : List String) :
    ∀ (names : List String) (i : Nat) (acc : List (String × String)) (p : String × String),
    p ∈ namedGroupsAux ms i names acc →
    p ∈ acc ∨ (p.1 ≠ "" ∧ namePositionsAux p.1 i names ≠ []) := by
  intro names
  induction names with
  | nil => intro i acc p hp; exact Or.inl hp
  | cons name rest ih =>
    intro i acc p hp
    have hpos : namePositionsAux p.1 i (name :: rest) =
        (if i ≠ 0 ∧ name = p.1 then [i] else []) ++ namePositionsAux p.1 (i + 1) rest := rfl
    rcases ih (i + 1) _ p hp with hacc | ⟨hne, htail⟩
    · by_cases hguard : i ≠ 0 ∧ name ≠ ""
      · rw [if_pos hguard] at hacc
        rcases mem_mapInsert _ _ _ _ hacc with hk | hm
        · refine Or.inr ⟨hk ▸ hguard.2, ?_⟩
          rw [hpos, if_pos ⟨hguard.1, hk.symm⟩]
          simp
        · exact Or.inl hm
      · rw [if_neg hguard] at hacc
        exact Or.inl hacc
    · refine Or.inr ⟨hne, ?_⟩
      rw [hpos]
      simp [htail]

theorem mem_allNamedGroupsAux (ms : List String) :
    ∀ (names : List String) (i : Nat) (acc : List (String × List String)) (p : String × List String),
    p ∈ allNamedGroupsAux ms i names acc →
    p ∈ acc ∨ (p.1 ≠ "" ∧ namePositionsAux p.1 i names ≠ []) := by
  intro names
  induction names with
  | nil => intro i acc p hp; exact Or.inl hp
  | cons name rest ih =>
    intro i acc p hp
    have hpos : namePositionsAux p.1 i (name :: rest) =
        (if i ≠ 0 ∧ name = p.1 then [i] else []) ++ namePositionsAux p.1 (i + 1) rest := rfl
    rcases ih (i + 1) _ p hp with hacc | ⟨hne, htail⟩
    · by_cases hguard : i ≠ 0 ∧ name ≠ ""
      · rw [if_pos hguard] at hacc
        rcases mem_mapAppend _ _ _ _ hacc with hk | hm
        · refine Or.inr ⟨hk ▸ hguard.2, ?_⟩
          rw [hpos, if_pos ⟨hguard.1, hk.symm⟩]
          simp
        · exact Or.inl hm
      · rw [if_neg hguard] at hacc
        exact Or.inl hacc
    · refine Or.inr ⟨hne, ?_⟩
      rw [hpos]
      simp [htail]

/-! Lemmas about `SubexpIndex` and the first-position view. -/

theorem subexpIndexAux_eq_none_of_not_mem (g : String) :
    ∀ names : List String, g ∉ names → subexpIndexAux g names = none := by
  intro names
  induction names with
  | nil => intro _; rfl
  | cons s rest ih =>
    intro h
    have hs : ¬(s = g) := fun he => h (he ▸ List.mem_cons_self s rest)
    have hrest : g ∉ rest := fun hm => h (List.mem_cons_of_mem s hm)
    rw [subexpIndexAux, if_neg hs, ih hrest]
    rfl

theorem subexpIndexAux_isSome_of_mem (g : String) :
    ∀ names : List String, g ∈ names → ∃ j, subexpIndexAux g names = some j := by
  intro names
  induction names with
  | nil => intro h; exact absurd h (List.not_mem_nil g)
  | cons s rest ih =>
    intro h
    by_cases hs : s = g
    · exact ⟨0, by rw [subexpIndexAux, if_pos hs]⟩
    · have hrest : g ∈ rest := by
        rcases List.mem_cons.mp h with h1 | h1
        · exact absurd h1.symm hs
        · exact h1
      obtain ⟨j, hj⟩ := ih hrest
      exact ⟨j + 1, by rw [subexpIndexAux, if_neg hs, hj]; rfl⟩

theorem head_namePositionsAux (g : String) :
    ∀ (rest : List String) (n : Nat), 1 ≤ n →
    (namePositionsAux g n rest).head? = (subexpIndexAux g rest).map (fun j => j + n) := by
  intro rest
  induction rest with
  | nil => intro n hn; rfl
  | cons name r ih =>
    intro n hn
    have hpos : namePositionsAux g n (name :: r) =
        (if n ≠ 0 ∧ name = g then [n] else []) ++ namePositionsAux g (n + 1) r := rfl
    by_cases hg : name = g
    · rw [hpos, if_pos ⟨Nat.one_le_iff_ne_zero.mp hn, hg⟩, subexpIndexAux, if_pos hg]
      simp
    · rw [hpos, if_neg (fun hc => hg hc.2), List.nil_append, subexpIndexAux, if_neg hg,
        ih (n + 1) (Nat.le_succ_of_le hn)]
      rw [Option.map_map]
      have hcomp : ((fun j => j + n) ∘ fun j => j + 1) = (fun j => j + (n + 1)) := by
        funext j
        simp only [Function.comp]
        omega
      rw [hcomp]

/-- Under the Go guarantee that position 0 carries the empty name, the
first subexpression index of a nonempty name is exactly the head of its
nonzero-position list. -/
theorem subexpIndex_eq_head_namePositions (re : Regexp) (g : String) (hg : g ≠ "")
    (hwf : re.subexpNames.getD 0 "" = "") :
    SubexpIndex re g = (namePositions re g).head? := by
  rw [SubexpIndex, if_neg hg, namePositions]
  cases hnames : re.subexpNames with
  | nil => rfl
  | cons n0 rest =>
    have h0 : n0 = "" := by
      rw [hnames] at hwf
      simpa using hwf
    subst h0
    have h1 : subexpIndexAux g ("" :: rest) =
        if "" = g then some 0 else (subexpIndexAux g rest).map (fun j => j + 1) := rfl
    have h2 : namePositionsAux g 0 ("" :: rest) =
        (if 0 ≠ 0 ∧ "" = g then [0] else []) ++ namePositionsAux g 1 rest := rfl
    rw [h1, if_neg (fun he => hg he.symm), h2, if_neg (fun hc => hc.1 rfl),
      List.nil_append, head_namePositionsAux g rest 1 (le_refl 1)]

theorem subexpValue_found (re : Regexp) (t g : String) (j : Nat) (ms : List String)
    (hg : g ≠ "") (hj : subexpIndexAux g re.subexpNames = some j)
    (hm : re.findStringSubmatch t = some ms) :
    SubexpValue re t g = (ms.getD j "", true) := by
  rw [SubexpValue, SubexpIndex, if_neg hg, hj, hm]

/-! Characterization of the deprecated `SubexpMap` fold. -/

theorem lookup_subexpMapAux (re : Regexp) (t : String) (ms : List String) (g : String)
    (hg : g ≠ "") (hm : re.findStringSubmatch t = some ms) :
    ∀ (suffix : List String) (i : Nat) (acc : List (String × String)),
    (∀ n ∈ suffix, n ∈ re.subexpNames) →
    mapLookup g (subexpMapAux re t i suffix acc) =
      if namePositionsAux g i suffix = [] then mapLookup g acc
      else (subexpIndexAux g re.subexpNames).map (fun j => ms.getD j "") := by
  intro suffix
  induction suffix with
  | nil => intro i acc _; rfl
  | cons name rest ih =>
    intro i acc hmem
    have hmemr : ∀ n ∈ rest, n ∈ re.subexpNames := fun n hn => hmem n (List.mem_cons_of_mem _ hn)
    have hpos : namePositionsAux g i (name :: rest) =
        (if i ≠ 0 ∧ name = g then [i] else []) ++ namePositionsAux g (i + 1) rest := rfl
    have hstep : subexpMapAux re t i (name :: rest) acc =
        subexpMapAux re t (i + 1) rest
          (if i ≠ 0 ∧ name ≠ "" then
            match SubexpValue re t name with
            | (value, true) => mapInsert acc name value
            | (_, false) => acc
          else acc) := rfl
    rw [hstep, ih (i + 1) _ hmemr]
    by_cases hig : i ≠ 0 ∧ name = g
    · have hguard : i ≠ 0 ∧ name ≠ "" := ⟨hig.1, by rw [hig.2]; exact hg⟩
      obtain ⟨j0, hj0⟩ := subexpIndexAux_isSome_of_mem name re.subexpNames
        (hmem name (List.mem_cons_self name rest))
      have hsv : SubexpValue re t name = (ms.getD j0 "", true) :=
        subexpValue_found re t name j0 ms hguard.2 hj0 hm
      rw [if_pos hguard, hsv]
      have hins : mapLookup g (mapInsert acc name (ms.getD j0 "")) = some (ms.getD j0 "") := by
        rw [hig.2] at hj0 ⊢
        exact mapLookup_mapInsert_self acc g (ms.getD j0 "")
      have hj0g : subexpIndexAux g re.subexpNames = some j0 := hig.2 ▸ hj0
      rw [hpos, if_pos hig]
      by_cases htail : namePositionsAux g (i + 1) rest = []
      · rw [if_pos htail, hins, if_neg (by simp), hj0g]
        rfl
      · rw [if_neg htail, if_neg (by simp)]
    · have hacc : mapLookup g
          (if i ≠ 0 ∧ name ≠ "" then
            match SubexpValue re t name with
            | (value, true) => mapInsert acc name value
            | (_, false) => acc
          else acc) = mapLookup g acc := by
        by_cases hguard : i ≠ 0 ∧ name ≠ ""
        · have hne : g ≠ name := fun he => hig ⟨hguard.1, he.symm⟩
          obtain ⟨j0, hj0⟩ := subexpIndexAux_isSome_of_mem name re.subexpNames
            (hmem name (List.mem_cons_self name rest))
          have hsv : SubexpValue re t name = (ms.getD j0 "", true) :=
            subexpValue_found re t name j0 ms hguard.2 hj0 hm
          rw [if_pos hguard, hsv]
          exact mapLookup_mapInsert_ne acc name g (ms.getD j0 "") hne
        · rw [if_neg hguard]
      rw [hacc, hpos, if_neg hig, List.nil_append]

/-- The deprecated `SubexpMap` and `NamedGroups` insert exactly the same
keys in the same order (when a match exists; both are empty otherwise). -/
theorem keys_subexpMapAux_eq (re : Regexp) (t : String) (ms : List String)
    (hm : re.findStringSubmatch t = some ms) :
    ∀ (suffix : List String) (i : Nat)
      (acc₁ acc₂ : List (String × String)),
    (∀ n ∈ suffix, n ∈ re.subexpNames) →
    acc₁.map Prod.fst = acc₂.map Prod.fst →
    (subexpMapAux re t i suffix acc₁).map Prod.fst =
      (namedGroupsAux ms i suffix acc₂).map Prod.fst := by
  intro suffix
  induction suffix with
  | nil => intro i acc₁ acc₂ _ h; exact h
  | cons name rest ih =>
    intro i acc₁ acc₂ hmem hkeys
    have hmemr : ∀ n ∈ rest, n ∈ re.subexpNames := fun n hn => hmem n (List.mem_cons_of_mem _ hn)
    refine ih (i + 1) _ _ hmemr ?_
    by_cases hguard : i ≠ 0 ∧ name ≠ ""
    · obtain ⟨j0, hj0⟩ := subexpIndexAux_isSome_of_mem name re.subexpNames
        (hmem name (List.mem_cons_self name rest))
      have hsv : SubexpValue re t name = (ms.getD j0 "", true) :=
        subexpValue_found re t name j0 ms hguard.2 hj0 hm
      rw [if_pos hguard, if_pos hguard, hsv]
      exact keys_mapInsert_congr name (ms.getD j0 "") (ms.getD i "") acc₁ acc₂ hkeys
    · rw [if_neg hguard, if_neg hguard]
      exact hkeys

/-! Lemma about the multi-record population loop. -/

theorem populateMany_ok (zero : Record) (names : List String) :
    ∀ occs : List (List String),
    (∀ ms ∈ occs, (populateFields (projectFirst names ms) zero).1 = none) →
    populateMany zero names occs =
      .ok (occs.map (fun ms => (populateFields (projectFirst names ms) zero).2)) := by
  intro occs
  induction occs with
  | nil => intro _; rfl
  | cons ms rest ih =>
    intro h
    have h1 : (populateFields (projectFirst names ms) zero).1 = none :=
      h ms (List.mem_cons_self ms rest)
    have h2 := ih (fun m hmm => h m (List.mem_cons_of_mem _ hmm))
    rcases hpp : populateFields (projectFirst names ms) zero with ⟨e, r⟩
    have he : e = none := by rw [hpp] at h1; exact h1
    subst he
    simp only [populateMany, hpp, h2, List.map_cons]

/-!
Concrete patterns used to instantiate the theorems below, taken from the
repository's test suite: the duplicate-name pattern
`(?P<first>one) (?P<second>two) (?P<second>again) three` and the
person pattern `(?P<name>\w+) is (?P<age>\d+)`, with their match results
on the test inputs.
-/

/-- The duplicate-name test pattern with its submatch behaviour on the
test input `one two again three`. -/
def dupRe : Regexp where
  subexpNames := ["", "first", "second", "second"]
  findStringSubmatch := fun t =>
    if t = "one two again three" then some ["one two again three", "one", "two", "again"]
    else none
  findAllStringSubmatch := fun t =>
    if t = "one two again three" then [["one two again three", "one", "two", "again"]]
    else []

/-- The person test pattern with its submatch behaviour on the test input
`Alice is 30 and Bob is 25`. -/
def peopleRe : Regexp where
  subexpNames := ["", "name", "age"]
  findStringSubmatch := fun t =>
    if t = "Alice is 30 and Bob is 25" then some ["Alice is 30", "Alice", "30"]
    else none
  findAllStringSubmatch := fun t =>
    if t = "Alice is 30 and Bob is 25" then
      [["Alice is 30", "Alice", "30"], ["Bob is 25", "Bob", "25"]]
    else []

/-- The zero value of the test record type `{Name string; Age int}`. -/
def personZero : Record :=
  [ (⟨"Name", .text, none, true⟩, .vstr ""), (⟨"Age", .signedInt, none, true⟩, .vint 0) ]

/-- The test field `Value string` carrying the tag override
`regex:"count"`. -/
def taggedField : FieldDesc :=
  ⟨"Value", .text, some ("count"), true⟩

/-!
The claims.
-/

/-- Claim C1: for every compiled pattern with a named capture group at
two or more capture positions and every text the pattern matches,
`NamedGroups` maps that name to the value captured at the last position
bearing the name, and `AllNamedGroups` maps it to the sequence of values
of every position bearing the name, in left-to-right position order. -/
theorem duplicate_named_groups_last_wins_and_all_in_order
    (re : Regexp) (t : String) (ms : List String)
    (hm : re.findStringSubmatch t = some ms)
    (g : String) (hg : g ≠ "")
    (hdup : 2 ≤ (namePositions re g).length) :
    mapLookup g (NamedGroups re t) =
      (namePositions re g).getLast?.map (fun j => ms.getD j "") ∧
    mapLookup g (AllNamedGroups re t) =
      some ((namePositions re g).map (fun j => ms.getD j "")) := by
  have hne : namePositions re g ≠ [] := by
    intro h
    rw [h] at hdup
    simp at hdup
  constructor
  · have h0 : NamedGroups re t = namedGroupsAux ms 0 re.subexpNames [] := by
      simp only [NamedGroups, hm]
    rw [h0, lookup_namedGroupsAux ms g hg re.subexpNames 0 []]
    cases hL : (namePositionsAux g 0 re.subexpNames).getLast? with
    | none =>
      exact absurd (by simpa [List.getLast?_eq_none_iff] using hL) hne
    | some j =>
      have hL' : (namePositions re g).getLast? = some j := hL
      rw [hL']
      rfl
  · have h0 : AllNamedGroups re t = allNamedGroupsAux ms 0 re.subexpNames [] := by
      simp only [AllNamedGroups, hm]
    rw [h0, lookup_allNamedGroupsAux ms g hg re.subexpNames 0 []]
    have hne' : namePositionsAux g 0 re.subexpNames ≠ [] := hne
    rw [if_neg hne']
    simp [mapLookup, namePositions]

/-- Witness for C1 at the duplicate-name test pattern: `second` occurs at
positions 2 and 3, the last-wins value is `again`, the collected values
are `two, again`. -/
theorem duplicate_named_groups_last_wins_and_all_in_order_witness :
    dupRe.findStringSubmatch ("one two again three") =
      some ["one two again three", "one", "two", "again"] ∧
    ("second" : String) ≠ "" ∧
    2 ≤ (namePositions dupRe ("second")).length ∧
    (mapLookup ("second") (NamedGroups dupRe ("one two again three")) =
      (namePositions dupRe ("second")).getLast?.map
        (fun j => (["one two again three", "one", "two", "again"]).getD j "") ∧
    mapLookup ("second") (AllNamedGroups dupRe ("one two again three")) =
      some ((namePositions dupRe ("second")).map
        (fun j => (["one two again three", "one", "two", "again"]).getD j ""))) :=
  ⟨by decide, by decide, by decide,
    duplicate_named_groups_last_wins_and_all_in_order dupRe ("one two again three")
      (["one two again three", "one", "two", "again"]) (by decide) ("second")
      (by decide) (by decide)⟩

/-- Claim C2: when the pattern has no occurrence in the text,
`NamedGroups` and `AllNamedGroups` both return the empty mapping (the
functions are total: no error, no absent value). -/
theorem no_match_named_groups_empty (re : Regexp) (t : String)
    (hm : re.findStringSubmatch t = none) :
    NamedGroups re t = [] ∧ AllNamedGroups re t = [] := by
  constructor
  · simp [NamedGroups, hm]
  · simp [AllNamedGroups, hm]

/-- Witness for C2: the duplicate-name pattern does not match
`one two three`, and both projections are empty there. -/
theorem no_match_named_groups_empty_witness :
    dupRe.findStringSubmatch ("one two three") = none ∧
    (NamedGroups dupRe ("one two three") = [] ∧
     AllNamedGroups dupRe ("one two three") = []) :=
  ⟨by decide, no_match_named_groups_empty dupRe ("one two three") (by decide)⟩

/-- Claim C5: when the pattern has no match in the text, `Unmarshal` into
a valid non-nil struct pointer returns no error and leaves every field of
the target exactly as it was. -/
theorem unmarshal_no_match_leaves_record_unchanged
    (re : Regexp) (text : String) (r : Record)
    (hm : re.findStringSubmatch text = none) :
    Unmarshal re text (.ptrStruct r) = (none, .ptrStruct r) := by
  simp [Unmarshal, hm]

/-- Witness for C5: the person pattern does not match `xyz`; the record
keeps its prior (zero) state and no error is returned. -/
theorem unmarshal_no_match_leaves_record_unchanged_witness :
    peopleRe.findStringSubmatch ("xyz") = none ∧
    Unmarshal peopleRe ("xyz") (.ptrStruct personZero) = (none, .ptrStruct personZero) :=
  ⟨by decide, unmarshal_no_match_leaves_record_unchanged peopleRe ("xyz") personZero (by decide)⟩

/-- Claim C6: every call to `Unmarshal` whose target is not a non-nil
pointer to a struct, and every call to `UnmarshalAll` whose target is not
a non-nil pointer to a slice of structs, returns a usage error and leaves
the target unchanged; the result is uniform in the pattern and text (the
validation happens before any matching or projection). -/
theorem invalid_target_usage_error_unchanged (re : Regexp) (text : String) :
    (isUsageError (Unmarshal re text .nilPtr).1 = true ∧
      (Unmarshal re text .nilPtr).2 = .nilPtr) ∧
    (∀ r : Record, isUsageError (Unmarshal re text (.nonPtr r)).1 = true ∧
      (Unmarshal re text (.nonPtr r)).2 = .nonPtr r) ∧
    (∀ s : String, isUsageError (Unmarshal re text (.ptrNonStruct s)).1 = true ∧
      (Unmarshal re text (.ptrNonStruct s)).2 = .ptrNonStruct s) ∧
    (isUsageError (UnmarshalAll re text .nilPtr).1 = true ∧
      (UnmarshalAll re text .nilPtr).2 = .nilPtr) ∧
    (∀ rs : List Record, isUsageError (UnmarshalAll re text (.nonPtr rs)).1 = true ∧
      (UnmarshalAll re text (.nonPtr rs)).2 = .nonPtr rs) ∧
    (∀ r : Record, isUsageError (UnmarshalAll re text (.ptrNonSlice r)).1 = true ∧
      (UnmarshalAll re text (.ptrNonSlice r)).2 = .ptrNonSlice r) ∧
    (∀ ss : List String, isUsageError (UnmarshalAll re text (.ptrSliceNonStruct ss)).1 = true ∧
      (UnmarshalAll re text (.ptrSliceNonStruct ss)).2 = .ptrSliceNonStruct ss) :=
  ⟨⟨rfl, rfl⟩, fun _ => ⟨rfl, rfl⟩, fun _ => ⟨rfl, rfl⟩, ⟨rfl, rfl⟩,
    fun _ => ⟨rfl, rfl⟩, fun _ => ⟨rfl, rfl⟩, fun _ => ⟨rfl, rfl⟩⟩

/-- Claim C7: `FindNamed` returns the captured substring of the (first)
position bearing the group name together with `true` when the name exists
in the pattern and the pattern matches; it returns `("", false)` when the
name does not exist in the pattern or there is no match. -/
theorem findNamed_found_and_not_found (re : Regexp) (t g : String) :
    (∀ ms j, g ≠ "" → re.findStringSubmatch t = some ms →
      subexpIndexAux g re.subexpNames = some j →
      FindNamed re t g = (ms.getD j "", true)) ∧
    (g = "" ∨ g ∉ re.subexpNames → FindNamed re t g = ("", false)) ∧
    (re.findStringSubmatch t = none → FindNamed re t g = ("", false)) := by
  refine ⟨?_, ?_, ?_⟩
  · intro ms j hg hm hj
    simp [FindNamed, SubexpIndex, hg, hj, hm]
  · intro h
    rcases h with h | h
    · simp [FindNamed, SubexpIndex, h]
    · by_cases hg : g = ""
      · simp [FindNamed, SubexpIndex, hg]
      · simp [FindNamed, SubexpIndex, hg,
          subexpIndexAux_eq_none_of_not_mem g re.subexpNames h]
  · intro hm
    cases hS : SubexpIndex re g with
    | none => simp [FindNamed, hS]
    | some j => simp [FindNamed, hS, hm]

/-- Witness for C7 at the duplicate-name test pattern: `second` is found
(with the value of its first position), `third` is absent, and nothing is
found on a non-matching text. -/
theorem findNamed_found_and_not_found_witness :
    (("second" : String) ≠ "" ∧
      dupRe.findStringSubmatch ("one two again three") =
        some ["one two again three", "one", "two", "again"] ∧
      subexpIndexAux ("second") dupRe.subexpNames = some 2 ∧
      FindNamed dupRe ("one two again three") ("second") =
        ((["one two again three", "one", "two", "again"]).getD 2 "", true)) ∧
    (("third" : String) ∉ dupRe.subexpNames ∧
      FindNamed dupRe ("one two again three") ("third") = ("", false)) ∧
    (dupRe.findStringSubmatch ("one two three") = none ∧
      FindNamed dupRe ("one two three") ("second") = ("", false)) :=
  ⟨⟨by decide, by decide, by decide,
      (findNamed_found_and_not_found dupRe ("one two again three") ("second")).1
        (["one two again three", "one", "two", "again"]) 2 (by decide) (by decide) (by decide)⟩,
    ⟨by decide,
      (findNamed_found_and_not_found dupRe ("one two again three") ("third")).2.1
        (Or.inr (by decide))⟩,
    ⟨by decide,
      (findNamed_found_and_not_found dupRe ("one two three") ("second")).2.2 (by decide)⟩⟩

/-- Claim C3: `UnmarshalAll` into a valid non-nil slice pointer replaces
the contents with the empty sequence (and no error) when the pattern has
zero occurrences; when it has at least one occurrence and every
per-occurrence record populates without conversion error, it returns no
error and the slice afterwards holds exactly one freshly populated record
per occurrence, in match order. -/
theorem unmarshalAll_empties_or_populates_in_order
    (re : Regexp) (text : String) (zero : Record) (contents : List Record) :
    (re.findAllStringSubmatch text = [] →
      UnmarshalAll re text (.ptrSlice zero contents) = (none, .ptrSlice zero [])) ∧
    (re.findAllStringSubmatch text ≠ [] →
      (∀ ms ∈ re.findAllStringSubmatch text,
        (populateFields (projectFirst re.subexpNames ms) zero).1 = none) →
      UnmarshalAll re text (.ptrSlice zero contents) =
        (none, .ptrSlice zero ((re.findAllStringSubmatch text).map
          (fun ms => (populateFields (projectFirst re.subexpNames ms) zero).2)))) := by
  constructor
  · intro h
    simp [UnmarshalAll, h]
  · intro hne hok
    cases hall : re.findAllStringSubmatch text with
    | nil => exact absurd hall hne
    | cons occ occs =>
      rw [hall] at hok
      have hpm := populateMany_ok zero re.subexpNames (occ :: occs) hok
      simp [UnmarshalAll, hall, hpm]

/-- Witness for C3 at the person pattern: a non-matching text empties a
previously nonempty slice with no error; the two-occurrence text produces
exactly the two records, in match order, with no error. -/
theorem unmarshalAll_empties_or_populates_in_order_witness :
    (peopleRe.findAllStringSubmatch ("no digits here") = [] ∧
      UnmarshalAll peopleRe ("no digits here") (.ptrSlice personZero [personZero]) =
        (none, .ptrSlice personZero [])) ∧
    (peopleRe.findAllStringSubmatch ("Alice is 30 and Bob is 25") ≠ [] ∧
      (∀ ms ∈ peopleRe.findAllStringSubmatch ("Alice is 30 and Bob is 25"),
        (populateFields (projectFirst peopleRe.subexpNames ms) personZero).1 = none) ∧
      UnmarshalAll peopleRe ("Alice is 30 and Bob is 25") (.ptrSlice personZero []) =
        (none, .ptrSlice personZero
          ((peopleRe.findAllStringSubmatch ("Alice is 30 and Bob is 25")).map
            (fun ms => (populateFields (projectFirst peopleRe.subexpNames ms) personZero).2)))) :=
  ⟨⟨by decide,
      (unmarshalAll_empties_or_populates_in_order peopleRe ("no digits here")
        personZero [personZero]).1 (by decide)⟩,
    ⟨by decide, by decide,
      (unmarshalAll_empties_or_populates_in_order peopleRe ("Alice is 30 and Bob is 25")
        personZero []).2 (by decide) (by decide)⟩⟩

/-- Claim C4: for a writable field carrying an explicit `regex` tag
override, the override name alone selects the source group: resolution is
exactly the mapping lookup of the override name (regardless of the
field's own name also matching a group); when the override name is a key,
the field receives that group's (converted) value, and when it is absent
the field is left unset with no error. -/
theorem regexTag_override_selects_source_group
    (f : FieldDesc) (o : String) (ho : f.regexTag = some o) (hw : f.writable = true)
    (mapping : List (String × String)) (v : FieldValue) :
    resolveSource f mapping = mapLookup o mapping ∧
    (∀ s, mapLookup o mapping = some s →
      populateFields mapping [(f, v)] =
        (match convertValue f s with
         | .ok v' => (none, [(f, v')])
         | .error e => (some e, [(f, v)]))) ∧
    (mapLookup o mapping = none → populateFields mapping [(f, v)] = (none, [(f, v)])) := by
  have hres : resolveSource f mapping = mapLookup o mapping := by
    rw [resolveSource, ho]
  refine ⟨hres, ?_, ?_⟩
  · intro s hs
    simp only [populateFields, hw, if_true, hres, hs]
  · intro hnone
    simp [populateFields, hw, hres, hnone]

/-- Witness for C4 at the test scenario: the field named `Value` tagged
`regex:"count"` receives the `count` group's value `42` even though the
mapping also has a `value` key; with the `count` key absent the field
stays unset and no error is raised. -/
theorem regexTag_override_selects_source_group_witness :
    (taggedField.regexTag = some ("count") ∧ taggedField.writable = true) ∧
    (resolveSource taggedField [("value", "hello"), ("count", "42")] =
      mapLookup ("count") [("value", "hello"), ("count", "42")]) ∧
    (mapLookup ("count") [("value", "hello"), ("count", "42")] = some ("42") ∧
      populateFields [("value", "hello"), ("count", "42")] [(taggedField, .vstr (""))] =
        (none, [(taggedField, .vstr ("42"))])) ∧
    (mapLookup ("count") [("value", "hello")] = none ∧
      populateFields [("value", "hello")] [(taggedField, .vstr (""))] =
        (none, [(taggedField, .vstr (""))])) :=
  ⟨⟨by decide, by decide⟩,
    (regexTag_override_selects_source_group taggedField ("count") (by decide) (by decide)
      [("value", "hello"), ("count", "42")] (.vstr (""))).1,
    ⟨by decide,
      ((regexTag_override_selects_source_group taggedField ("count") (by decide) (by decide)
        [("value", "hello"), ("count", "42")] (.vstr (""))).2.1 ("42") (by decide)).trans
        (by decide)⟩,
    ⟨by decide,
      (regexTag_override_selects_source_group taggedField ("count") (by decide) (by decide)
        [("value", "hello")] (.vstr (""))).2.2 (by decide)⟩⟩

/-- Claim C8: the mappings returned by `NamedGroups` and `AllNamedGroups`
never contain the empty string as a key, and every entry's key is borne
by some nonzero capture position of the pattern (so no entry derives from
an unnamed position or from position 0). -/
theorem group_value_mapping_no_empty_or_unnamed_keys (re : Regexp) (t : String) :
    (∀ p ∈ NamedGroups re t, p.1 ≠ "" ∧ namePositions re p.1 ≠ []) ∧
    (∀ q ∈ AllNamedGroups re t, q.1 ≠ "" ∧ namePositions re q.1 ≠ []) := by
  constructor
  · intro p hp
    cases hm : re.findStringSubmatch t with
    | none =>
      rw [show NamedGroups re t = [] by simp [NamedGroups, hm]] at hp
      exact absurd hp (List.not_mem_nil p)
    | some ms =>
      rw [show NamedGroups re t = namedGroupsAux ms 0 re.subexpNames [] by
        simp only [NamedGroups, hm]] at hp
      rcases mem_namedGroupsAux ms re.subexpNames 0 [] p hp with h | h
      · exact absurd h (List.not_mem_nil p)
      · exact h
  · intro q hq
    cases hm : re.findStringSubmatch t with
    | none =>
      rw [show AllNamedGroups re t = [] by simp [AllNamedGroups, hm]] at hq
      exact absurd hq (List.not_mem_nil q)
    | some ms =>
      rw [show AllNamedGroups re t = allNamedGroupsAux ms 0 re.subexpNames [] by
        simp only [AllNamedGroups, hm]] at hq
      rcases mem_allNamedGroupsAux ms re.subexpNames 0 [] q hq with h | h
      · exact absurd h (List.not_mem_nil q)
      · exact h

/-- Witness for C8 at the duplicate-name test pattern: the entry for
`second` in each mapping has a nonempty key borne by a nonzero capture
position. -/
theorem group_value_mapping_no_empty_or_unnamed_keys_witness :
    (("second", "again") ∈ NamedGroups dupRe ("one two again three") ∧
      (("second", "again") : String × String).1 ≠ "" ∧
      namePositions dupRe (("second", "again") : String × String).1 ≠ []) ∧
    (("second", ["two", "again"]) ∈ AllNamedGroups dupRe ("one two again three") ∧
      (("second", ["two", "again"]) : String × List String).1 ≠ "" ∧
      namePositions dupRe (("second", ["two", "again"]) : String × List String).1 ≠ []) :=
  ⟨⟨by decide,
      (group_value_mapping_no_empty_or_unnamed_keys dupRe ("one two again three")).1
        (("second", "again")) (by decide)⟩,
    ⟨by decide,
      (group_value_mapping_no_empty_or_unnamed_keys dupRe ("one two again three")).2
        (("second", ["two", "again"])) (by decide)⟩⟩

/-- Claim C9: with a group name at two or more capture positions and a
matching text, `FindNamed` returns the substring captured at the first
position bearing the name (while `NamedGroups` keeps the last one), so
the two can differ on duplicated names. -/
theorem findNamed_first_position_vs_namedGroups_last
    (re : Regexp) (t g : String) (ms : List String)
    (hwf : re.subexpNames.getD 0 "" = "") (hg : g ≠ "")
    (hdup : 2 ≤ (namePositions re g).length)
    (hm : re.findStringSubmatch t = some ms) :
    FindNamed re t g = (ms.getD ((namePositions re g).headD 0) "", true) ∧
    mapLookup g (NamedGroups re t) =
      some (ms.getD ((namePositions re g).getLastD 0) "") := by
  have hne : namePositions re g ≠ [] := by
    intro h
    rw [h] at hdup
    simp at hdup
  cases hpos : namePositions re g with
  | nil => exact absurd hpos hne
  | cons j0 rest =>
    constructor
    · have hidx : SubexpIndex re g = (namePositions re g).head? :=
        subexpIndex_eq_head_namePositions re g hg hwf
      rw [hpos] at hidx
      simp [FindNamed, hidx, hm]
    · have h0 : NamedGroups re t = namedGroupsAux ms 0 re.subexpNames [] := by
        simp only [NamedGroups, hm]
      rw [h0, lookup_namedGroupsAux ms g hg re.subexpNames 0 []]
      have hnp : namePositionsAux g 0 re.subexpNames = j0 :: rest := hpos
      rw [hnp]
      cases hL : (j0 :: rest).getLast? with
      | none => simp [List.getLast?_eq_none_iff] at hL
      | some jl =>
        have hD : (j0 :: rest).getLastD 0 = jl := by
          rw [List.getLastD_eq_getLast?, hL]
          rfl
        rw [hD]

/-- Witness for C9 at the duplicate-name test pattern: `FindNamed` yields
`two` (position 2, the first bearing `second`), `NamedGroups` keeps
`again` (position 3), and the two disagree. -/
theorem findNamed_first_position_vs_namedGroups_last_witness :
    (dupRe.subexpNames.getD 0 "" = "" ∧ ("second" : String) ≠ "" ∧
      2 ≤ (namePositions dupRe ("second")).length ∧
      dupRe.findStringSubmatch ("one two again three") =
        some ["one two again three", "one", "two", "again"]) ∧
    (FindNamed dupRe ("one two again three") ("second") =
        ((["one two again three", "one", "two", "again"]).getD
          ((namePositions dupRe ("second")).headD 0) "", true) ∧
      mapLookup ("second") (NamedGroups dupRe ("one two again three")) =
        some ((["one two again three", "one", "two", "again"]).getD
          ((namePositions dupRe ("second")).getLastD 0) "")) ∧
    (FindNamed dupRe ("one two again three") ("second")).1 ≠
      (mapLookup ("second") (NamedGroups dupRe ("one two again three"))).getD "" :=
  ⟨⟨by decide, by decide, by decide, by decide⟩,
    findNamed_first_position_vs_namedGroups_last dupRe ("one two again three") ("second")
      (["one two again three", "one", "two", "again"]) (by decide) (by decide)
      (by decide) (by decide),
    by decide⟩

/-- Claim C10: the deprecated `SubexpMap` returns a mapping with the same
key set as `NamedGroups` but maps each key to the value captured at the
first position bearing that name; hence the two agree on every name with
exactly one capture position (and may differ on duplicated names). -/
theorem subexpMap_same_keys_first_position_values (re : Regexp) (t : String) :
    (SubexpMap re t).map Prod.fst = (NamedGroups re t).map Prod.fst ∧
    (∀ ms g, re.findStringSubmatch t = some ms → g ≠ "" →
      re.subexpNames.getD 0 "" = "" →
      mapLookup g (SubexpMap re t) =
        (namePositions re g).head?.map (fun j => ms.getD j "")) ∧
    (∀ ms g, re.findStringSubmatch t = some ms → g ≠ "" →
      re.subexpNames.getD 0 "" = "" →
      (namePositions re g).length = 1 →
      mapLookup g (SubexpMap re t) = mapLookup g (NamedGroups re t)) := by
  refine ⟨?_, ?_, ?_⟩
  · cases hm : re.findStringSubmatch t with
    | none => simp [SubexpMap, NamedGroups, hm]
    | some ms =>
      rw [show SubexpMap re t = subexpMapAux re t 0 re.subexpNames [] by
          simp only [SubexpMap, hm],
        show NamedGroups re t = namedGroupsAux ms 0 re.subexpNames [] by
          simp only [NamedGroups, hm]]
      exact keys_subexpMapAux_eq re t ms hm re.subexpNames 0 [] [] (fun n hn => hn) rfl
  · intro ms g hm hg hwf
    rw [show SubexpMap re t = subexpMapAux re t 0 re.subexpNames [] by
        simp only [SubexpMap, hm],
      lookup_subexpMapAux re t ms g hg hm re.subexpNames 0 [] (fun n hn => hn)]
    have hidx' : subexpIndexAux g re.subexpNames = (namePositions re g).head? := by
      rw [← subexpIndex_eq_head_namePositions re g hg hwf, SubexpIndex, if_neg hg]
    by_cases hnull : namePositionsAux g 0 re.subexpNames = []
    · rw [if_pos hnull]
      rw [show namePositions re g = [] from hnull]
      rfl
    · rw [if_neg hnull, hidx']
  · intro ms g hm hg hwf hlen
    cases hpos : namePositions re g with
    | nil =>
      rw [hpos] at hlen
      simp at hlen
    | cons j rest =>
      have hrest : rest = [] := by
        rw [hpos] at hlen
        simpa using hlen
      subst hrest
      rw [show SubexpMap re t = subexpMapAux re t 0 re.subexpNames [] by
          simp only [SubexpMap, hm],
        show NamedGroups re t = namedGroupsAux ms 0 re.subexpNames [] by
          simp only [NamedGroups, hm],
        lookup_subexpMapAux re t ms g hg hm re.subexpNames 0 [] (fun n hn => hn),
        lookup_namedGroupsAux ms g hg re.subexpNames 0 []]
      have hidx' : subexpIndexAux g re.subexpNames = (namePositions re g).head? := by
        rw [← subexpIndex_eq_head_namePositions re g hg hwf, SubexpIndex, if_neg hg]
      have hnp : namePositionsAux g 0 re.subexpNames = [j] := hpos
      rw [hnp, if_neg (by simp), hidx', hpos]
      simp

/-- Witness for C10 at the duplicate-name test pattern: same key lists;
`second` maps to its first-position value `two` in `SubexpMap`; the
singleton name `first` agrees across the two maps; and the duplicated
name `second` disagrees. -/
theorem subexpMap_same_keys_first_position_values_witness :
    ((SubexpMap dupRe ("one two again three")).map Prod.fst =
      (NamedGroups dupRe ("one two again three")).map Prod.fst) ∧
    (mapLookup ("second") (SubexpMap dupRe ("one two again three")) =
      (namePositions dupRe ("second")).head?.map
        (fun j => (["one two again three", "one", "two", "again"]).getD j "")) ∧
    ((namePositions dupRe ("first")).length = 1 ∧
      mapLookup ("first") (SubexpMap dupRe ("one two again three")) =
        mapLookup ("first") (NamedGroups dupRe ("one two again three"))) ∧
    mapLookup ("second") (SubexpMap dupRe ("one two again three")) ≠
      mapLookup ("second") (NamedGroups dupRe ("one two again three")) :=
  ⟨(subexpMap_same_keys_first_position_values dupRe ("one two again three")).1,
    (subexpMap_same_keys_first_position_values dupRe ("one two again three")).2.1
      (["one two again three", "one", "two", "again"]) ("second")
      (by decide) (by decide) (by decide),
    ⟨by decide,
      (subexpMap_same_keys_first_position_values dupRe ("one two again three")).2.2
        (["one two again three", "one", "two", "again"]) ("first")
        (by decide) (by decide) (by decide) (by decide)⟩,
    by decide⟩

end Regextra
